import Mathlib

/-!
Verification of the `page-metadata-parser-ts` rule-evaluation engine
(`src/index.ts`) via a shallow embedding in Lean 4.

The document tree and its selector-query mechanism are external
collaborators: a document is modelled as a function from selector
strings to the ordered list of matching elements, and an element as
its attribute list plus text content.  JavaScript truthiness matters
in the engine (`if (newScore)`, `if (!maxValue)`, `if (maxValue)`)
and is modelled explicitly: the number `0` is falsy, the empty string
is falsy, `null`/`undefined` are falsy.
-/

set_option autoImplicit false

namespace PageMetadata

/-- `Context` from `src/index.ts`: `{ url: string }`. -/
structure Context where
  url : String
  deriving Repr, DecidableEq

/-- An element of the parsed document tree (external collaborator):
attribute list in source order plus text content. -/
structure Element where
  attrs : List (String × String)
  text : String
  deriving Repr, DecidableEq

/-- `element.getAttribute(name)`: the first attribute with the given
name, or `none` (JS `null`) when absent. -/
def Element.getAttribute (e : Element) (name : String) : Option String :=
  (e.attrs.find? (fun p => p.1 = name)).map Prod.snd

/-- The document-query collaborator: `doc.querySelectorAll(query)`
modelled as a function from selector strings to element lists. -/
abbrev Doc := String → List Element

/-- The value threaded through the processor pipeline: a plain string
or an array of strings (the `keywords` processor produces an array). -/
inductive Value where
  | str : String → Value
  | list : List String → Value
  deriving Repr, DecidableEq

/-- One field's rule set, as in the `RuleSets` type of `src/index.ts`:
`rules` are (selector, extractor) pairs; optional `scorers`,
`defaultValue` and `processors` (an absent optional field behaves
exactly like an empty list / `none`). -/
structure FieldRuleSet where
  rules : List (String × (Element → Option String))
  scorers : List (Element → Int → Option Int) := []
  defaultValue : Option (Context → String) := none
  processors : List (Value → Context → Value) := []

/-- JS `String.prototype.trim` on a character list: drop whitespace
from both ends. -/
def trimChars (cs : List Char) : List Char :=
  ((cs.dropWhile Char.isWhitespace).reverse.dropWhile Char.isWhitespace).reverse

/-- JS `value.trim()`. -/
def jsTrim (s : String) : String :=
  String.mk (trimChars s.data)

/-- JS truthiness of the engine's `maxValue` variable
(`undefined`/`null`/`""` are falsy). -/
def strTruthy : Option String → Bool
  | none => false
  | some s => !s.data.isEmpty

/-- One scorer application from `buildRuleSet`:
`const newScore = scorer(element, score); if (newScore) score = newScore;`
— a returned `0` is falsy in JS and therefore does NOT replace the score. -/
def scorerStep (e : Element) (score : Int) (scorer : Element → Int → Option Int) : Int :=
  match scorer e score with
  | some n => if n = 0 then score else n
  | none => score

/-- The scorer loop of `buildRuleSet`: apply every scorer in declared
order to the score computed so far. -/
def applyScorers (scorers : List (Element → Int → Option Int)) (e : Element)
    (score : Int) : Int :=
  scorers.foldl (fun cur f => scorerStep e cur f) score

/-- The engine's mutable state: `maxScore` (initially `0`) and
`maxValue` (initially `undefined`; `none` also stands for a `null`
extraction result, which behaves identically afterwards). -/
structure EngState where
  maxScore : Int
  maxValue : Option String
  deriving Repr

/-- The body of the inner element loop of `buildRuleSet`:
compute the base score `ruleSet.rules.length - currRule`, run the
scorers, and on a strictly greater score record the extractor's result. -/
def stepElement (n i : Nat) (scorers : List (Element → Int → Option Int))
    (handler : Element → Option String) (st : EngState) (e : Element) : EngState :=
  let score := applyScorers scorers e ((n : Int) - (i : Int))
  if st.maxScore < score then { maxScore := score, maxValue := handler e } else st

/-- The outer `for (let currRule = 0; …)` loop of `buildRuleSet`:
walk the remaining rule entries with the current index `i`, folding the
engine state over every element matched by each entry's selector (in
document-query order). -/
def runRulesFrom (n : Nat) (scorers : List (Element → Int → Option Int)) (doc : Doc) :
    Nat → List (String × (Element → Option String)) → EngState → EngState
  | _, [], st => st
  | i, (query, handler) :: rest, st =>
    runRulesFrom n scorers doc (i + 1) rest
      ((doc query).foldl (stepElement n i scorers handler) st)

/-- The rule/element double loop of `buildRuleSet`, starting from
index `0` with `maxScore = 0` and `maxValue` unset. -/
def runRules (rs : FieldRuleSet) (doc : Doc) : EngState :=
  runRulesFrom rs.rules.length rs.scorers doc 0 rs.rules { maxScore := 0, maxValue := none }

/-- The evaluator returned by `buildRuleSet`: run the rule loop, fall
back to `defaultValue` when `maxValue` is falsy, then run the processor
pipeline and trim a final plain string; a falsy final `maxValue` yields
`undefined` (`none`). -/
def evaluateRuleSet (rs : FieldRuleSet) (doc : Doc) (ctx : Context) : Option Value :=
  let st := runRules rs doc
  let mv1 : Option String :=
    if strTruthy st.maxValue then st.maxValue
    else match rs.defaultValue with
      | some f => some (f ctx)
      | none => st.maxValue
  if strTruthy mv1 then
    match mv1 with
    | some s =>
      let v := rs.processors.foldl (fun v p => p v ctx) (Value.str s)
      some (match v with
        | Value.str t => Value.str (jsTrim t)
        | Value.list l => Value.list l)
    | none => none
  else none

/-! ### Helper transforms: provider-name derivation and URL absolutization -/

/-- The ASCII character class `[a-zA-Z0-9]` of the regex in `getProvider`. -/
def isAlnum (c : Char) : Bool :=
  (('a' ≤ c && c ≤ 'z') || ('A' ≤ c && c ≤ 'Z') || ('0' ≤ c && c ≤ '9'))

/-- Try to match the regex `www[a-zA-Z0-9]*\.` at the start of `cs`,
returning the length of the (greedy, leftmost) match.  Because the
character class excludes `'.'`, the greedy match succeeds iff the
maximal alphanumeric run after `www` is followed by a `'.'`. -/
def wwwMatchLen (cs : List Char) : Option Nat :=
  match cs with
  | 'w' :: 'w' :: 'w' :: rest =>
    match rest.drop (rest.takeWhile isAlnum).length with
    | '.' :: _ => some (3 + (rest.takeWhile isAlnum).length + 1)
    | _ => none
  | _ => none

/-- `host.replace(/www[a-zA-Z0-9]*\./, '')`: delete the leftmost match
of the regex, if any (JS `replace` without the `g` flag replaces only
the first match). -/
def replaceWwwAux : List Char → List Char
  | [] => []
  | c :: cs =>
    match wwwMatchLen (c :: cs) with
    | some n => (c :: cs).drop n
    | none => c :: replaceWwwAux cs

/-- Whether the list starts with the literal `.co.`. -/
def startsWithCoDot : List Char → Bool
  | '.' :: 'c' :: 'o' :: '.' :: _ => true
  | _ => false

/-- `s.replace('.co.', '.')`: replace the first occurrence of the
literal `.co.` by `.` (JS string-pattern `replace` replaces only the
first occurrence), i.e. keep the leading `.` and drop the following
`co.`. -/
def replaceCoAux : List Char → List Char
  | [] => []
  | c :: cs =>
    if startsWithCoDot (c :: cs) then c :: cs.drop 3
    else c :: replaceCoAux cs

/-- `s.split(sep)` for a one-character separator, as in JS:
`"".split('.') = [""]`, `"a.b".split('.') = ["a","b"]`. -/
def splitOnChar (sep : Char) : List Char → List (List Char)
  | [] => [[]]
  | c :: cs =>
    if c = sep then [] :: splitOnChar sep cs
    else
      match splitOnChar sep cs with
      | [] => [[c]]
      | p :: ps => (c :: p) :: ps

/-- `parts.join(' ')`. -/
def joinSpace : List (List Char) → List Char
  | [] => []
  | [p] => p
  | p :: ps => p ++ ' ' :: joinSpace ps

/-- `getProvider` from `src/index.ts`: strip the first `www…[alnum]*.`
prefix match, replace the first `.co.` with `.`, split on `'.'`, drop
the last label, join with spaces. -/
def getProvider (host : String) : String :=
  String.mk
    (joinSpace ((splitOnChar '.' (replaceCoAux (replaceWwwAux host.data))).dropLast))

/-- Whether the list starts with the literal `://`. -/
def startsWithSchemeSep : List Char → Bool
  | ':' :: '/' :: '/' :: _ => true
  | _ => false

/-- Split a URL's characters at the first `://`, returning the scheme
part and the remainder, or `none` when there is no `://`. -/
def schemeSplit : List Char → Option (List Char × List Char)
  | [] => none
  | c :: cs =>
    if startsWithSchemeSep (c :: cs) then some ([], cs.drop 2)
    else
      match schemeSplit cs with
      | some (pre, post) => some (c :: pre, post)
      | none => none

/-- Whether a URL string is absolute, i.e. contains the `://` scheme
separator. -/
def isAbsoluteUrl (s : String) : Bool :=
  (schemeSplit s.data).isSome

/-- Whether a string starts with `/` (a root-relative reference). -/
def startsWithSlash (s : String) : Bool :=
  match s.data with
  | '/' :: _ => true
  | _ => false

/-- The scheme-and-host prefix of an absolute URL: everything up to the
first `/` after `://` (e.g. the origin of `https://a.com/x/y` is
`https://a.com`). -/
def urlOrigin (base : String) : String :=
  match schemeSplit base.data with
  | some (scheme, rest) =>
    String.mk (scheme ++ ':' :: '/' :: '/' :: rest.takeWhile (fun c => c ≠ '/'))
  | none => base

/-- The base URL with its last path segment removed (everything up to
and including the last `/`). -/
def urlDirname (base : String) : String :=
  String.mk (base.data.reverse.dropWhile (fun c => c ≠ '/')).reverse

/-- Modelled from the spec: `makeUrlAbsolute` in `src/index.ts` is
`new URL(relative, base).href`, whose URL-resolution primitive is an
out-of-scope external collaborator ("URL parsing/resolution
primitives"); per the spec it "resolves a possibly-relative URL string
against the document's base URL (`context.url`), producing a canonical
absolute URL".  An already-absolute URL resolves to itself; a
root-relative path is appended to the base's origin; any other
relative reference replaces the base's last path segment. -/
def makeUrlAbsolute (base relative : String) : String :=
  if isAbsoluteUrl relative then relative
  else if startsWithSlash relative then urlOrigin base ++ relative
  else urlDirname base ++ relative

/-! ### The built-in rule sets (`metadataRuleSets` in `src/index.ts`) -/

/-- Lift a string-to-string processor into the pipeline value type
(the built-in string processors are only ever applied to strings). -/
def liftStr (f : String → Context → String) : Value → Context → Value
  | Value.str s, ctx => Value.str (f s ctx)
  | Value.list l, _ => Value.list l

/-- Lift a string-to-string-array processor into the pipeline value
type. -/
def liftStrList (f : String → Context → List String) : Value → Context → Value
  | Value.str s, ctx => Value.list (f s ctx)
  | Value.list l, _ => Value.list l

/-- `sizes.match(/\d+/g)` followed by taking the first element: the
first maximal run of ASCII digits in the string, or `none` (JS `null`)
when the string has no digit. -/
def firstDigitRun : List Char → Option (List Char)
  | [] => none
  | c :: cs =>
    if c.isDigit then some (c :: cs.takeWhile Char.isDigit)
    else firstDigitRun cs

/-- `Number(...)` applied to a nonempty digit string. -/
def digitsToNat (ds : List Char) : Nat :=
  ds.foldl (fun a c => a * 10 + (c.toNat - '0'.toNat)) 0

/-- The `icon` field's scorer: read the `sizes` attribute; when it is
truthy and contains a digit run, return the numeric value of the first
run as the new score; otherwise return `undefined` (no opinion). -/
def iconScorer (element : Element) (_score : Int) : Option Int :=
  match element.getAttribute "sizes" with
  | some sizes =>
    if sizes.data.isEmpty then none
    else
      match firstDigitRun sizes.data with
      | some ds => some (digitsToNat ds : Nat)
      | none => none
  | none => none

/-- The `language` field's processor: `language.split('-')[0]`. -/
def languageProcessor (language : String) (_ctx : Context) : String :=
  String.mk ((splitOnChar '-' language.data).headI)

/-- The `keywords` field's processor:
`keywords.split(',').map(keyword => keyword.trim())`. -/
def keywordsProcessor (keywords : String) (_ctx : Context) : List String :=
  (splitOnChar ',' keywords.data).map (fun cs => String.mk (trimChars cs))

/-- An extractor reading the given attribute (the ubiquitous
`element.getAttribute('content')`-style handlers). -/
def attrHandler (name : String) : Element → Option String :=
  fun e => e.getAttribute name

/-- `metadataRuleSets.description`. -/
def descriptionRuleSet : FieldRuleSet where
  rules := [
    ("meta[property=\"og:description\"]", attrHandler "content"),
    ("meta[name=\"description\" i]", attrHandler "content")]

/-- `metadataRuleSets.icon`. -/
def iconRuleSet : FieldRuleSet where
  rules := [
    ("link[rel=\"apple-touch-icon\"]", attrHandler "href"),
    ("link[rel=\"apple-touch-icon-precomposed\"]", attrHandler "href"),
    ("link[rel=\"icon\" i]", attrHandler "href"),
    ("link[rel=\"fluid-icon\"]", attrHandler "href"),
    ("link[rel=\"shortcut icon\"]", attrHandler "href"),
    ("link[rel=\"Shortcut Icon\"]", attrHandler "href"),
    ("link[rel=\"mask-icon\"]", attrHandler "href")]
  scorers := [iconScorer]
  defaultValue := some (fun _ => "favicon.ico")
  processors := [liftStr (fun icon_url ctx => makeUrlAbsolute ctx.url icon_url)]

/-- `metadataRuleSets.image`. -/
def imageRuleSet : FieldRuleSet where
  rules := [
    ("meta[property=\"og:image:secure_url\"]", attrHandler "content"),
    ("meta[property=\"og:image:url\"]", attrHandler "content"),
    ("meta[property=\"og:image\"]", attrHandler "content"),
    ("meta[name=\"twitter:image\"]", attrHandler "content"),
    ("meta[property=\"twitter:image\"]", attrHandler "content"),
    ("meta[name=\"thumbnail\"]", attrHandler "content")]
  processors := [liftStr (fun image_url ctx => makeUrlAbsolute ctx.url image_url)]

/-- `metadataRuleSets.keywords`. -/
def keywordsRuleSet : FieldRuleSet where
  rules := [("meta[name=\"keywords\" i]", attrHandler "content")]
  processors := [liftStrList keywordsProcessor]

/-- `metadataRuleSets.title` (the bare `title` rule reads the
element's text content, which is always a string). -/
def titleRuleSet : FieldRuleSet where
  rules := [
    ("meta[property=\"og:title\"]", attrHandler "content"),
    ("meta[name=\"twitter:title\"]", attrHandler "content"),
    ("meta[property=\"twitter:title\"]", attrHandler "content"),
    ("meta[name=\"hdl\"]", attrHandler "content"),
    ("title", fun e => some e.text)]

/-- `metadataRuleSets.language`. -/
def languageRuleSet : FieldRuleSet where
  rules := [
    ("html[lang]", attrHandler "lang"),
    ("meta[name=\"language\" i]", attrHandler "content")]
  processors := [liftStr languageProcessor]

/-- `metadataRuleSets.type`. -/
def typeRuleSet : FieldRuleSet where
  rules := [("meta[property=\"og:type\"]", attrHandler "content")]

/-- `metadataRuleSets.url`. -/
def urlRuleSet : FieldRuleSet where
  rules := [
    ("a.amp-canurl", attrHandler "href"),
    ("link[rel=\"canonical\"]", attrHandler "href"),
    ("meta[property=\"og:url\"]", attrHandler "content")]
  defaultValue := some (fun ctx => ctx.url)
  processors := [liftStr (fun url ctx => makeUrlAbsolute ctx.url url)]

/-- `parseUrl` from `src/index.ts` is `new URL(url).host`; modelled
from the spec's external URL primitive: the host part of an absolute
URL. -/
def parseUrl (url : String) : String :=
  match schemeSplit url.data with
  | some (_, rest) => String.mk (rest.takeWhile (fun c => c ≠ '/'))
  | none => url

/-- `metadataRuleSets.provider`. -/
def providerRuleSet : FieldRuleSet where
  rules := [("meta[property=\"og:site_name\"]", attrHandler "content")]
  defaultValue := some (fun ctx => getProvider (parseUrl ctx.url))

/-- The built-in default rule-set table `metadataRuleSets`, in source
declaration order. -/
def metadataRuleSets : List (String × FieldRuleSet) := [
  ("description", descriptionRuleSet),
  ("icon", iconRuleSet),
  ("image", imageRuleSet),
  ("keywords", keywordsRuleSet),
  ("title", titleRuleSet),
  ("language", languageRuleSet),
  ("type", typeRuleSet),
  ("url", urlRuleSet),
  ("provider", providerRuleSet)]

/-- `getMetadata`: build the context from the location's `href`, run
every field's evaluator and collect the results under the field keys. -/
def getMetadata (doc : Doc) (locationHref : String)
    (ruleSets : List (String × FieldRuleSet)) : List (String × Option Value) :=
  let ctx : Context := { url := locationHref }
  ruleSets.map (fun p => (p.1, evaluateRuleSet p.2 doc ctx))

/-- A featureless element, used for concrete instantiations. -/
def elemNull : Element := { attrs := [], text := "" }

/-! ### Auxiliary lemmas -/

theorem wwwMatchLen_eq_none {cs : List Char} (h : '.' ∉ cs) : wwwMatchLen cs = none := by
  unfold wwwMatchLen
  split
  · next rest =>
    split
    · next l heq =>
      exfalso
      apply h
      have hdrop : '.' ∈ rest.drop (rest.takeWhile isAlnum).length := by
        rw [heq]; exact List.mem_cons_self _ _
      have : '.' ∈ rest := List.drop_subset _ _ hdrop
      simp [this]
    · rfl
  · rfl

theorem replaceWwwAux_of_no_dot {cs : List Char} (h : '.' ∉ cs) :
    replaceWwwAux cs = cs := by
  induction cs with
  | nil => rfl
  | cons c cs ih =>
    rw [replaceWwwAux, wwwMatchLen_eq_none h]
    rw [ih (fun hc => h (List.mem_cons_of_mem _ hc))]

theorem startsWithCoDot_eq_false {l : List Char} (h : '.' ∉ l) :
    startsWithCoDot l = false := by
  unfold startsWithCoDot
  split
  · next => exact absurd (List.mem_cons_self _ _) h
  · rfl

theorem replaceCoAux_of_no_dot {cs : List Char} (h : '.' ∉ cs) :
    replaceCoAux cs = cs := by
  induction cs with
  | nil => rfl
  | cons c cs ih =>
    rw [replaceCoAux, startsWithCoDot_eq_false h]
    simp only [Bool.false_eq_true, if_false]
    rw [ih (fun hc => h (List.mem_cons_of_mem _ hc))]

theorem splitOnChar_ne_nil (sep : Char) (cs : List Char) : splitOnChar sep cs ≠ [] := by
  cases cs with
  | nil => simp [splitOnChar]
  | cons c cs =>
    rw [splitOnChar]
    split
    · simp
    · split <;> simp

theorem splitOnChar_of_not_mem {sep : Char} {cs : List Char} (h : sep ∉ cs) :
    splitOnChar sep cs = [cs] := by
  induction cs with
  | nil => rfl
  | cons c cs ih =>
    have hc : ¬c = sep := fun hc => h (hc ▸ List.mem_cons_self _ _)
    rw [splitOnChar, if_neg hc, ih (fun hm => h (List.mem_cons_of_mem _ hm))]

theorem splitOnChar_headI (sep : Char) (cs : List Char) :
    (splitOnChar sep cs).headI = cs.takeWhile (fun c => c ≠ sep) := by
  induction cs with
  | nil => rfl
  | cons c cs ih =>
    rw [splitOnChar]
    by_cases hc : c = sep
    · subst hc
      simp [List.takeWhile]
    · rw [if_neg hc]
      have hne := splitOnChar_ne_nil sep cs
      cases hsp : splitOnChar sep cs with
      | nil => exact absurd hsp hne
      | cons p ps =>
        have : (p :: ps).headI = p := rfl
        rw [hsp] at ih
        simp only [List.headI] at ih ⊢
        rw [List.takeWhile_cons, if_pos (by simpa using hc), ih]

theorem runRulesFrom_skip (n : Nat) (sc : List (Element → Int → Option Int)) (doc : Doc) :
    ∀ (rules : List (String × (Element → Option String))) (k : Nat) (st : EngState),
      (∀ r ∈ rules, doc r.1 = []) → runRulesFrom n sc doc k rules st = st := by
  intro rules
  induction rules with
  | nil => intro k st _; rfl
  | cons r rest ih =>
    intro k st h
    obtain ⟨q, hd⟩ := r
    rw [runRulesFrom, h (q, hd) (List.mem_cons_self _ _), List.foldl_nil]
    exact ih (k + 1) st (fun r' hr' => h r' (List.mem_cons_of_mem _ hr'))

theorem runRulesFrom_single (n : Nat) (sc : List (Element → Int → Option Int)) (doc : Doc) :
    ∀ (rules : List (String × (Element → Option String))) (i k : Nat) (st : EngState)
      (hi : i < rules.length),
      (∀ j (hj : j < rules.length), j ≠ i → doc (rules.get ⟨j, hj⟩).1 = []) →
      runRulesFrom n sc doc k rules st =
        (doc (rules.get ⟨i, hi⟩).1).foldl (stepElement n (k + i) sc (rules.get ⟨i, hi⟩).2) st := by
  intro rules
  induction rules with
  | nil => intro i k st hi _; exact absurd hi (by simp)
  | cons r rest ih =>
    intro i k st hi hothers
    obtain ⟨q, hd⟩ := r
    cases i with
    | zero =>
      rw [runRulesFrom]
      have hrest : ∀ r' ∈ rest, doc r'.1 = [] := by
        intro r' hr'
        obtain ⟨j, hget⟩ := List.get_of_mem hr'
        have hj' : j.val + 1 < ((q, hd) :: rest).length := by
          simp only [List.length_cons]
          omega
        have hoth := hothers (j.val + 1) hj' (Nat.succ_ne_zero _)
        rw [show ((q, hd) :: rest).get ⟨j.val + 1, hj'⟩ = rest.get j from rfl] at hoth
        rw [hget] at hoth
        exact hoth
      rw [runRulesFrom_skip n sc doc rest (k + 1) _ hrest]
      simp
    | succ j =>
      rw [runRulesFrom]
      have h0 : doc q = [] := by
        have := hothers 0 (by simp) (by omega)
        simpa using this
      rw [h0, List.foldl_nil]
      have hj : j < rest.length := by simpa using hi
      have hih := ih j (k + 1) st hj (fun m hm hne => ?_)
      · rw [hih]
        have hk : k + 1 + j = k + (j + 1) := by omega
        rw [hk]
        rfl
      · have hm' : m + 1 < ((q, hd) :: rest).length := by
          simp only [List.length_cons]
          omega
        have := hothers (m + 1) hm' (by omega)
        simpa using this

theorem iconScorer_sizes16 {e : Element} (h : e.getAttribute "sizes" = some "16x16")
    (sc : Int) : iconScorer e sc = some 16 := by
  unfold iconScorer
  rw [h]
  rfl

theorem iconScorer_sizes32 {e : Element} (h : e.getAttribute "sizes" = some "32x32")
    (sc : Int) : iconScorer e sc = some 32 := by
  unfold iconScorer
  rw [h]
  rfl

theorem applyScorers_icon16 {e : Element} (h : e.getAttribute "sizes" = some "16x16")
    (sc : Int) : applyScorers [iconScorer] e sc = 16 := by
  simp [applyScorers, scorerStep, iconScorer_sizes16 h]

theorem applyScorers_icon32 {e : Element} (h : e.getAttribute "sizes" = some "32x32")
    (sc : Int) : applyScorers [iconScorer] e sc = 32 := by
  simp [applyScorers, scorerStep, iconScorer_sizes32 h]

theorem foldPair_16_32 {e16 e32 : Element} (h16 : e16.getAttribute "sizes" = some "16x16")
    (h32 : e32.getAttribute "sizes" = some "32x32") (n k : Nat)
    (handler : Element → Option String) :
    List.foldl (stepElement n k [iconScorer] handler) { maxScore := 0, maxValue := none }
        [e16, e32] = { maxScore := 32, maxValue := handler e32 } := by
  simp [List.foldl, stepElement, applyScorers_icon16 h16, applyScorers_icon32 h32]

theorem foldPair_32_16 {e16 e32 : Element} (h16 : e16.getAttribute "sizes" = some "16x16")
    (h32 : e32.getAttribute "sizes" = some "32x32") (n k : Nat)
    (handler : Element → Option String) :
    List.foldl (stepElement n k [iconScorer] handler) { maxScore := 0, maxValue := none }
        [e32, e16] = { maxScore := 32, maxValue := handler e32 } := by
  simp [List.foldl, stepElement, applyScorers_icon16 h16, applyScorers_icon32 h32]

/-! ### Claim theorems -/

/-- C7: the provider-name derivation `getProvider` applied to the host
string `"www.example.co.uk"` yields `"example"`, and applied to
`"blog.example.com"` yields `"blog example"` (strip a leading www-like
label, collapse `.co.<tld>` to `.<tld>`, split on `'.'`, drop the final
label, join the rest with spaces). -/
theorem getProvider_spec_examples :
    getProvider "www.example.co.uk" = "example" ∧
      getProvider "blog.example.com" = "blog example" := by
  constructor <;> rfl

/-- C10: for every host string containing no `'.'` character, the
provider-name derivation `getProvider` returns the empty string: no
regex or `.co.` replacement applies, splitting on `'.'` yields the
single label, and the final label is always dropped. -/
theorem getProvider_no_dot (host : String) (h : '.' ∉ host.data) :
    getProvider host = "" := by
  unfold getProvider
  rw [replaceWwwAux_of_no_dot h, replaceCoAux_of_no_dot h, splitOnChar_of_not_mem h]
  rfl

/-- Witness for C10 at the concrete host `"localhost"`. -/
theorem getProvider_no_dot_witness : getProvider "localhost" = "" :=
  getProvider_no_dot "localhost" (by decide)

/-- C9: the built-in `language` field's processor returns the substring
of the selected value before the first `'-'` (the longest `'-'`-free
prefix), and a value with no `'-'` is returned whole. -/
theorem languageProcessor_spec :
    (∀ (s : String) (ctx : Context),
        languageProcessor s ctx = String.mk (s.data.takeWhile (fun c => c ≠ '-'))) ∧
      (∀ (s : String) (ctx : Context), '-' ∉ s.data → languageProcessor s ctx = s) := by
  have hmain : ∀ (s : String) (ctx : Context),
      languageProcessor s ctx = String.mk (s.data.takeWhile (fun c => c ≠ '-')) := by
    intro s ctx
    unfold languageProcessor
    rw [splitOnChar_headI]
  refine ⟨hmain, fun s ctx h => ?_⟩
  have hall : ∀ c ∈ s.data, decide (c ≠ '-') = true := by
    intro c hc
    simp only [decide_eq_true_eq]
    exact fun hcd => h (hcd ▸ hc)
  rw [hmain s ctx, List.takeWhile_eq_self_iff.mpr hall]

/-- Witness for C9 at the concrete values `"en-US"` and `"en"`. -/
theorem languageProcessor_spec_witness :
    languageProcessor "en-US" { url := "" } = "en" ∧
      languageProcessor "en" { url := "" } = "en" :=
  ⟨(languageProcessor_spec.1 "en-US" { url := "" }).trans rfl,
    languageProcessor_spec.2 "en" { url := "" } (by decide)⟩

/-- C6 counterexample: the built-in default rule-set table
`metadataRuleSets` does not have exactly seven fields. -/
theorem metadataRuleSets_not_seven : metadataRuleSets.length ≠ 7 := by decide

/-- C6 (amended): the built-in default rule-set table ships exactly
nine standard fields, in declaration order `description`, `icon`,
`image`, `keywords`, `title`, `language`, `type`, `url`, `provider`. -/
theorem metadataRuleSets_nine_fields :
    metadataRuleSets.map Prod.fst =
        ["description", "icon", "image", "keywords", "title", "language", "type",
          "url", "provider"] ∧
      metadataRuleSets.length = 9 := by
  constructor <;> rfl

/-- C2 counterexample: a scorer that returns the integer `0` does NOT
replace the current score (JS `if (newScore)` treats `0` as falsy), so
the claim "for every integer it returns, including zero" fails: with
current score `5` and a scorer returning `0`, the score stays `5`. -/
theorem applyScorers_zero_not_replacing :
    applyScorers [fun _ _ => some 0] elemNull 5 ≠ 0 ∧
      applyScorers [fun _ _ => some 0] elemNull 5 = 5 := by
  constructor <;> decide

/-- C2 (amended): scorers are applied in declared order to the score
computed so far; a scorer that returns a NONZERO integer replaces the
current score with that integer, while a scorer that returns zero or
signals no opinion (returns no value) leaves the score unchanged; an
empty scorer list leaves the score as is. -/
theorem applyScorers_spec (e : Element) (s : Int) (f : Element → Int → Option Int)
    (fs : List (Element → Int → Option Int)) :
    (∀ n : Int, f e s = some n → n ≠ 0 →
        applyScorers (f :: fs) e s = applyScorers fs e n) ∧
      (f e s = some 0 → applyScorers (f :: fs) e s = applyScorers fs e s) ∧
      (f e s = none → applyScorers (f :: fs) e s = applyScorers fs e s) ∧
      applyScorers [] e s = s := by
  refine ⟨fun n hn hnz => ?_, fun h0 => ?_, fun hno => ?_, rfl⟩
  · simp [applyScorers, scorerStep, hn, hnz]
  · simp [applyScorers, scorerStep, h0]
  · simp [applyScorers, scorerStep, hno]

/-- Witness for C2 (amended): a scorer returning the nonzero integer
`7` replaces the score `3`. -/
theorem applyScorers_spec_witness :
    applyScorers [fun _ _ => some 7] elemNull 3 = 7 := by
  have h := (applyScorers_spec elemNull 3 (fun _ _ => some 7) []).1 7 rfl (by decide)
  simpa [applyScorers] using h

/-- C3: the base score of a candidate matched by the entry at 0-based
index `i` out of `n` rule entries, before any scorer runs, equals
`n - i` (observed through the engine step with no scorers from the
initial state); earlier-declared rules yield strictly higher base
scores, and the last rule's base score is `1`. -/
theorem stepElement_base_score (n i : Nat) (handler : Element → Option String)
    (e : Element) (hi : i < n) :
    (stepElement n i [] handler { maxScore := 0, maxValue := none } e).maxScore =
        (n : Int) - (i : Int) ∧
      (∀ j : Nat, j < n → i < j → (n : Int) - (i : Int) > (n : Int) - (j : Int)) ∧
      (stepElement n (n - 1) [] handler { maxScore := 0, maxValue := none } e).maxScore = 1 := by
  refine ⟨?_, fun j hj hij => by omega, ?_⟩
  · have hpos : (0 : Int) < (n : Int) - (i : Int) := by omega
    simp [stepElement, applyScorers, hpos]
  · have hpos : (0 : Int) < (n : Int) - ((n - 1 : Nat) : Int) := by omega
    have hval : (n : Int) - ((n - 1 : Nat) : Int) = 1 := by omega
    simp [stepElement, applyScorers, hpos, hval]

/-- Witness for C3 with `n = 2` rules, index `i = 0`: base score `2`. -/
theorem stepElement_base_score_witness :
    (stepElement 2 0 [] (fun _ => none) { maxScore := 0, maxValue := none }
        elemNull).maxScore = 2 := by
  have h := (stepElement_base_score 2 0 (fun _ => none) elemNull (by decide)).1
  simpa using h

/-- C4: a candidate replaces the incumbent selection exactly when its
final (post-scorer) score is strictly greater than the current
`maxScore`; a candidate whose score ties or is below `maxScore` leaves
the state unchanged, so the first-encountered maximal value wins and
selection is deterministic. -/
theorem stepElement_strict_improvement (n i : Nat)
    (scorers : List (Element → Int → Option Int)) (handler : Element → Option String)
    (st : EngState) (e : Element) :
    (st.maxScore < applyScorers scorers e ((n : Int) - (i : Int)) →
        stepElement n i scorers handler st e =
          { maxScore := applyScorers scorers e ((n : Int) - (i : Int)),
            maxValue := handler e }) ∧
      (applyScorers scorers e ((n : Int) - (i : Int)) ≤ st.maxScore →
        stepElement n i scorers handler st e = st) := by
  constructor
  · intro hgt
    simp [stepElement, hgt]
  · intro hle
    have : ¬st.maxScore < applyScorers scorers e ((n : Int) - (i : Int)) := by omega
    simp [stepElement, this]

/-- Witness for C4: a tie (score `1` against incumbent `maxScore = 1`)
does not replace the incumbent. -/
theorem stepElement_strict_improvement_witness :
    stepElement 1 0 [] (fun _ => some "v") { maxScore := 1, maxValue := some "w" }
        elemNull = { maxScore := 1, maxValue := some "w" } :=
  (stepElement_strict_improvement 1 0 [] (fun _ => some "v")
      { maxScore := 1, maxValue := some "w" } elemNull).2 (by decide)

/-- C1: when the extractor of the current max-scoring candidate
returns `null`/absent, the (total, hence non-crashing) engine step
records no value (`maxValue` becomes `none`) while `maxScore` has
already been updated to the winning score; `maxScore` never decreases
across steps, and any later candidate whose score does not exceed the
current `maxScore` leaves the state — hence the selection — unchanged,
so the null extraction "claims" the slot. -/
theorem stepElement_null_extraction (n i : Nat)
    (scorers : List (Element → Int → Option Int)) (handler : Element → Option String)
    (st : EngState) (e : Element) :
    (handler e = none → st.maxScore < applyScorers scorers e ((n : Int) - (i : Int)) →
        stepElement n i scorers handler st e =
          { maxScore := applyScorers scorers e ((n : Int) - (i : Int)),
            maxValue := none }) ∧
      st.maxScore ≤ (stepElement n i scorers handler st e).maxScore ∧
      (applyScorers scorers e ((n : Int) - (i : Int)) ≤ st.maxScore →
        stepElement n i scorers handler st e = st) := by
  refine ⟨fun hnull hgt => ?_, ?_, fun hle => ?_⟩
  · simp [stepElement, hgt, hnull]
  · by_cases hlt : st.maxScore < applyScorers scorers e ((n : Int) - (i : Int))
    · simp [stepElement, hlt]
      omega
    · simp [stepElement, hlt]
  · have : ¬st.maxScore < applyScorers scorers e ((n : Int) - (i : Int)) := by omega
    simp [stepElement, this]

/-- Witness for C1: a null-extracting candidate with winning score `3`
erases the incumbent value and inflates `maxScore` to `3`. -/
theorem stepElement_null_extraction_witness :
    stepElement 3 0 [] (fun _ => none) { maxScore := 0, maxValue := some "old" }
        elemNull = { maxScore := 3, maxValue := none } := by
  have h := (stepElement_null_extraction 3 0 [] (fun _ => none)
      { maxScore := 0, maxValue := some "old" } elemNull).1 rfl (by decide)
  simpa [applyScorers] using h

/-- C8: for a context whose `url` is a (whitespace-trimmed) absolute
URL — the data-model invariant for `Context` — and a document in which
none of the `url` field's rules match (no amp-canurl anchor, no
canonical link, no `og:url` meta), the `url` field resolves to
`context.url` unchanged: the default value, passed through the field's
absolutizing processor and the final trim, equals the original
`context.url`. -/
theorem urlRuleSet_default_fallback (doc : Doc) (ctx : Context)
    (h1 : doc "a.amp-canurl" = [])
    (h2 : doc "link[rel=\"canonical\"]" = [])
    (h3 : doc "meta[property=\"og:url\"]" = [])
    (habs : isAbsoluteUrl ctx.url = true)
    (htrim : jsTrim ctx.url = ctx.url) :
    evaluateRuleSet urlRuleSet doc ctx = some (Value.str ctx.url) := by
  have hrun : runRules urlRuleSet doc = { maxScore := 0, maxValue := none } := by
    simp [runRules, runRulesFrom, urlRuleSet, h1, h2, h3]
  have hne : ctx.url.data.isEmpty = false := by
    cases hd : ctx.url.data with
    | nil =>
      exfalso
      simp [isAbsoluteUrl, hd, schemeSplit] at habs
    | cons c cs => rfl
  have hmk : makeUrlAbsolute ctx.url ctx.url = ctx.url := by
    unfold makeUrlAbsolute
    rw [habs]
    simp
  simp only [evaluateRuleSet]
  rw [hrun]
  simp [urlRuleSet, strTruthy, hne, liftStr, hmk, htrim]

/-- Witness for C8 at the context URL `"https://example.com/page"`
and the empty document. -/
theorem urlRuleSet_default_fallback_witness :
    evaluateRuleSet urlRuleSet (fun _ => []) { url := "https://example.com/page" } =
      some (Value.str "https://example.com/page") :=
  urlRuleSet_default_fallback (fun _ => []) { url := "https://example.com/page" }
    rfl rfl rfl (by decide) (by decide)

/-- C5: for the `icon` field's default configuration, whenever one
rule entry (at any index `i`) matches exactly two elements whose
`sizes` attributes are `"16x16"` and `"32x32"` — in either document
order — and no other entry matches, the `32x32` element is selected
(its extracted `href` becomes `maxValue`), because the icon scorer
returns the numeric size as the candidate's score, overriding both
declaration order and document position. -/
theorem iconRuleSet_32_wins (doc : Doc) (e16 e32 : Element) (i : Nat)
    (hi : i < iconRuleSet.rules.length)
    (h16 : e16.getAttribute "sizes" = some "16x16")
    (h32 : e32.getAttribute "sizes" = some "32x32")
    (hmatch : doc (iconRuleSet.rules.get ⟨i, hi⟩).1 = [e16, e32] ∨
      doc (iconRuleSet.rules.get ⟨i, hi⟩).1 = [e32, e16])
    (hothers : ∀ j (hj : j < iconRuleSet.rules.length), j ≠ i →
      doc (iconRuleSet.rules.get ⟨j, hj⟩).1 = []) :
    (runRules iconRuleSet doc).maxValue = e32.getAttribute "href" := by
  have hhandler : (iconRuleSet.rules.get ⟨i, hi⟩).2 = attrHandler "href" := by
    have hi7 : i < 7 := hi
    interval_cases i <;> rfl
  have hsingle := runRulesFrom_single iconRuleSet.rules.length iconRuleSet.scorers doc
    iconRuleSet.rules i 0 { maxScore := 0, maxValue := none } hi hothers
  unfold runRules
  rw [hsingle, hhandler]
  have hsc : iconRuleSet.scorers = [iconScorer] := rfl
  rw [hsc]
  rcases hmatch with hm | hm <;> rw [hm]
  · rw [foldPair_16_32 h16 h32]
    rfl
  · rw [foldPair_32_16 h16 h32]
    rfl

/-- Witness for C5 at index `i = 2` (the `link[rel="icon" i]` entry)
with two concrete link elements. -/
theorem iconRuleSet_32_wins_witness :
    (runRules iconRuleSet
        (fun q => if q = "link[rel=\"icon\" i]" then
          [{ attrs := [("rel", "icon"), ("href", "small.png"), ("sizes", "16x16")], text := "" },
            { attrs := [("rel", "icon"), ("href", "large.png"), ("sizes", "32x32")], text := "" }]
          else [])).maxValue = some "large.png" := by
  have h := iconRuleSet_32_wins
    (fun q => if q = "link[rel=\"icon\" i]" then
      [{ attrs := [("rel", "icon"), ("href", "small.png"), ("sizes", "16x16")], text := "" },
        { attrs := [("rel", "icon"), ("href", "large.png"), ("sizes", "32x32")], text := "" }]
      else [])
    { attrs := [("rel", "icon"), ("href", "small.png"), ("sizes", "16x16")], text := "" }
    { attrs := [("rel", "icon"), ("href", "large.png"), ("sizes", "32x32")], text := "" }
    2 (by decide) (by decide) (by decide)
    (Or.inl (by decide))
    (by decide)
  rw [h]
  decide

end PageMetadata
